import Mathlib

/-!
Verification of the GS1 Digital Link URI simple parser (gs1dlparser.c /
gs1dlparser.h) against its natural-language specification.

The C sources are shallowly embedded: the caller's NUL-terminated input
buffer is a `List Char` together with `Nat` indices playing the role of the
`char *` pointers, and every destructive in-place write (`*p = c`) becomes
`List.set`.  C-string reads past the end of the list return the NUL
character, matching the terminator of the surrounding C string.  All loops
are translated to structurally recursive functions; the ones whose C
counterparts advance a pointer take an explicit fuel argument that the
top-level entry point instantiates with `buffer length + 1`, which is an
upper bound on the number of iterations because each iteration moves the
pointer strictly (forward for the extraction loops, backward for the
primary-key scan).
-/

/-- `GS1_DL_MAX_AI_LEN` from gs1dlparser.h: maximum length of an AI value. -/
def GS1_DL_MAX_AI_LEN : Nat := 90

/-- `GS1_DL_MAX_AIS` from gs1dlparser.h: maximum number of AIs in a DL URI. -/
def GS1_DL_MAX_AIS : Nat := 64

/-- `GS1_DL_MAX_AI_BUF` from gs1dlparser.h: capacity of the internal AI data
buffer, `GS1_DL_MAX_AIS * (4 + GS1_DL_MAX_AI_LEN)`. -/
def GS1_DL_MAX_AI_BUF : Nat := GS1_DL_MAX_AIS * (4 + GS1_DL_MAX_AI_LEN)

/-- The NUL character terminating C strings. -/
def nulChar : Char := Char.ofNat 0

/-- Index of the first element of a list satisfying `p` (used to model
`strchr`/`memchr`). -/
def firstIdx (p : Char → Bool) : List Char → Option Nat
  | [] => none
  | c :: rest => if p c then some 0 else (firstIdx p rest).map (· + 1)

/-- Index of the last element of a list satisfying `p` (used to model
`strrchr`). -/
def lastIdx (p : Char → Bool) : List Char → Option Nat
  | [] => none
  | c :: rest =>
    match lastIdx p rest with
    | some k => some (k + 1)
    | none => if p c then some 0 else none

/-- The C string starting at offset `i` of the buffer: the characters from
`i` up to (excluding) the first NUL.  A buffer with no NUL in it models a C
buffer whose terminator sits immediately after the listed bytes. -/
def cstrAt (buf : List Char) (i : Nat) : List Char :=
  (buf.drop i).takeWhile (fun c => !(c == nulChar))

/-- `strlen` of the C string starting at offset `i`. -/
def cstrlenAt (buf : List Char) (i : Nat) : Nat := (cstrAt buf i).length

/-- `strchr(buf + i, c)` as a buffer offset (for `c` a non-NUL character). -/
def strchrFrom (buf : List Char) (i : Nat) (c : Char) : Option Nat :=
  (firstIdx (fun x => x == c) (cstrAt buf i)).map (i + ·)

/-- `strrchr(buf + i, c)` as a buffer offset (for `c` a non-NUL character). -/
def strrchrFrom (buf : List Char) (i : Nat) (c : Char) : Option Nat :=
  (lastIdx (fun x => x == c) (cstrAt buf i)).map (i + ·)

/-- The `len` raw buffer bytes starting at offset `i` (pointer plus length
slice, as passed around by the C parser). -/
def subAt (buf : List Char) (i len : Nat) : List Char := (buf.drop i).take len

/-- `memchr(buf + i, c, n)` as a buffer offset. -/
def memchrRange (buf : List Char) (i n : Nat) (c : Char) : Option Nat :=
  (firstIdx (fun x => x == c) (subAt buf i n)).map (i + ·)

/-- A decimal digit, as tested by `allDigits` (`str[i] < '0' || str[i] > '9'`
negated). -/
def isDigitC (c : Char) : Bool := ('0' ≤ c) && (c ≤ '9')

/-- `allDigits(buf + i, len)` from gs1dlparser.c: the first `len` characters
starting at offset `i` are all decimal digits. -/
def allDigitsAt (buf : List Char) (i len : Nat) : Bool :=
  (List.range len).all (fun k => isDigitC (buf.getD (i + k) nulChar))

/-- `isxdigit` (C locale): a hexadecimal digit, either case. -/
def isxdigitC (c : Char) : Bool :=
  (('0' ≤ c) && (c ≤ '9')) || (('a' ≤ c) && (c ≤ 'f')) || (('A' ≤ c) && (c ≤ 'F'))

/-- Value of a hexadecimal digit, as computed by `strtoul(hex, NULL, 16)` on
a two-character hex string (only used under an `isxdigitC` guard). -/
def hexVal (c : Char) : Nat :=
  if c ≤ '9' then c.toNat - 48
  else if 'a' ≤ c then c.toNat - 97 + 10
  else c.toNat - 65 + 10

/-- The `uriCharacters` allow-list from gs1dlparser.c (the single-quote
character is appended separately as `Char.ofNat 39`). -/
def uriCharacters : List Char :=
  "ABCDEFGHIJKLMNOPQRSTUVWXYZabcdefghijklmnopqrstuvwxyz0123456789-._~:/?#[]@!$&".toList
    ++ [Char.ofNat 39] ++ "()*+,;=%".toList

/-- The `dl_pkeys` table from gs1dlparser.c: AI codes designated as Digital
Link primary keys. -/
def dl_pkeys : List (List Char) :=
  ["00", "01", "253", "255", "401", "402", "414", "417",
   "8003", "8004", "8006", "8010", "8013", "8017", "8018"].map String.toList

/-- `isDLpkey(ai, ailen)` from gs1dlparser.c, taking the exact `ailen`-byte
slice: an entry matches when its length equals `ailen` and the first `ailen`
bytes agree, i.e. when it equals the slice. -/
def isDLpkey (ai : List Char) : Bool := dl_pkeys.any (fun k => k == ai)

/-- The `fixedAIprefixes` table from gs1dlparser.c: two-character AI prefixes
that do not require FNC1 termination. -/
def fixedAIprefixes : List (List Char) :=
  ["00", "01", "02", "03", "04",
   "11", "12", "13", "14", "15", "16", "17", "18", "19", "20",
   "31", "32", "33", "34", "35", "36", "41"].map String.toList

/-- `isFNC1required(ai)` from gs1dlparser.c.  The C code runs
`strncmp(fixedAIprefixes[i], ai, 2)` on the pointer into the AI buffer; each
table entry is exactly two characters, so the comparison succeeds exactly
when the entry equals the first two characters of `ai` (every stored AI has
at least two characters). -/
def isFNC1required (ai : List Char) : Bool :=
  !(fixedAIprefixes.any (fun k => k == ai.take 2))

/-- The loop of `URIunescape` from gs1dlparser.c.  The C loop walks an index
`i` over the `inlen`-byte slice; here `n = inlen - i` counts the slice bytes
not yet consumed and `rest` is the buffer tail starting at the current
position `i` (it extends past the slice, exactly as the C pointer does, and
`getD` past its end yields the NUL terminator of the surrounding C string).
The C guard for a `%XX` escape is `i < inlen - 2` on `size_t` values: for
`inlen ≥ 2` this is `n > 2`, while for `inlen < 2` the subtraction wraps
around and the guard is identically true, which is the `inlen < 2` disjunct
below.  The output position `j` advances once per iteration and the loop
also stops when `j` reaches `maxlen`. -/
def unescLoop (q : Bool) (inlen maxlen : Nat) : Nat → Nat → List Char → List Char
  | 0, _, _ => []
  | n + 1, j, rest =>
    if maxlen ≤ j then []
    else
      let c0 := rest.getD 0 nulChar
      if (decide (2 < n + 1) || decide (inlen < 2)) && (c0 == '%')
          && isxdigitC (rest.getD 1 nulChar) && isxdigitC (rest.getD 2 nulChar) then
        Char.ofNat (16 * hexVal (rest.getD 1 nulChar) + hexVal (rest.getD 2 nulChar)) ::
          (match n with
           | n' + 2 => unescLoop q inlen maxlen n' (j + 1) (rest.drop 3)
           | _ => [])
      else if q && (c0 == '+') then
        ' ' :: unescLoop q inlen maxlen n (j + 1) (rest.drop 1)
      else
        c0 :: unescLoop q inlen maxlen n (j + 1) (rest.drop 1)

/-- `URIunescape(out, maxlen, in, inlen, is_query_component)` from
gs1dlparser.c.  `inp` is the buffer tail at the input pointer (of which the
first `inlen` bytes are the slice being decoded); the returned list is the
decoded output, whose length is the returned `j`. -/
def URIunescape (maxlen : Nat) (inp : List Char) (inlen : Nat) (q : Bool) : List Char :=
  unescLoop q inlen maxlen inlen 0 inp

/-- Modelled from the specification's words (for comparison with
`URIunescape`): replace each well-formed `%XX` escape (two valid hex digits,
case-insensitive) by the byte it denotes; in the query phase only, `+`
decodes to a space; any malformed escape — `%` followed by a non-hex digit,
or `%` within two characters of the end of the input — is copied through
literally, unconverted. -/
def percentDecodeSpec (q : Bool) : List Char → List Char
  | [] => []
  | a :: h1 :: h2 :: rest2 =>
    if (a == '%') && isxdigitC h1 && isxdigitC h2 then
      Char.ofNat (16 * hexVal h1 + hexVal h2) :: percentDecodeSpec q rest2
    else if a == '+' then
      (if q then ' ' else '+') :: percentDecodeSpec q (h1 :: h2 :: rest2)
    else
      a :: percentDecodeSpec q (h1 :: h2 :: rest2)
  | [a] =>
    if a == '+' then (if q then ' ' else '+') :: [] else [a]
  | [a, b] =>
    (if a == '+' then (if q then ' ' else '+') else a) :: percentDecodeSpec q [b]

/-- The "special handling of AI (01) to pad up to a GTIN-14" block from
gs1dlparser.c (it appears verbatim in both the path and the query loop).
The C loop writes `aival[13-i] = vallen >= i+1 ? aival[vallen-i-1] : '0'`
for `i = 0..13`, descending through write positions `13,12,...,0` while
reading positions strictly below the write position (for `vallen ≤ 13`
every read index `vallen-i-1` is `< 13-i`), so the in-place update reads
only original bytes; substituting `j = 13-i` yields the functional form
below.  The guard is `ailen == 2 && strncmp(ai, "01", 2) == 0`, i.e. the
AI slice is exactly "01". -/
def applyGTINnorm (ai aival : List Char) : List Char :=
  if (ai == "01".toList)
      && (decide (aival.length = 13) || decide (aival.length = 12) || decide (aival.length = 8)) then
    (List.range 14).map
      (fun j => if 14 - j ≤ aival.length then aival.getD (aival.length + j - 14) '0' else '0')
  else aival

/-- `writeAIbuf(v, l)` from gs1dlparser.c: fails (`goto fail`, leaving the
error message untouched) when `strlen(aiBuf) + l > GS1_DL_MAX_AI_BUF`, and
otherwise `strncat`s the `l` bytes of `v` (the call sites pass exactly
`l`-byte slices).  The returned list is the NUL-terminated buffer content;
`strncat` additionally writes a terminating NUL at the index equal to the
content length. -/
def writeAIbuf (aiBuf v : List Char) : Option (List Char) :=
  if GS1_DL_MAX_AI_BUF < aiBuf.length + v.length then none else some (aiBuf ++ v)

/-- Error message of the structural character-set check. -/
def illegalCharsMsg : List Char := "URI contains illegal characters".toList

/-- Error message of the scheme check. -/
def badSchemeMsg : List Char := "Scheme must be http:// or https://".toList

/-- Error message of the domain/path check. -/
def noDomainMsg : List Char := "URI must contain a domain and path info".toList

/-- Error message when the backward scan finds no primary key. -/
def noKeysMsg : List Char := "No GS1 DL keys found in path info".toList

/-- Error message for an empty AI value path element. -/
def emptyPathValMsg (ai : List Char) : List Char :=
  "AI (".toList ++ ai ++ ") value path element is empty".toList

/-- Error message for an empty AI value query element. -/
def emptyQueryValMsg (ai : List Char) : List Char :=
  "AI (".toList ++ ai ++ ") value query element is empty".toList

/-- Error message for a path value that decodes to length zero. -/
def decodedTooLongPathMsg (ai : List Char) : List Char :=
  "Decoded AI (".toList ++ ai ++ ") from DL path info too long".toList

/-- Error message for a query value that decodes to length zero. -/
def decodedTooLongQueryMsg (ai : List Char) : List Char :=
  "Decoded AI (".toList ++ ai ++ ") value from DL query params too long".toList

/-- Error message for a numeric query parameter that is not 2-4 characters
long; it shows at most the first 10 characters of the parameter name. -/
def numericQueryParamMsg (s : List Char) : List Char :=
  "Stopping. Numeric query parameter that is not a valid AI is illegal: ".toList
    ++ s ++ "...".toList

/-- Error message when `GS1_DL_MAX_AIS` elements are exceeded. -/
def tooManyAIsMsg : List Char := "Too many AIs".toList

/-- Default error message installed by the `fail:` label when no specific
message was recorded. -/
def failMsgDefault : List Char := "Failed to parse DL data".toList

/-- `struct gs1AIelement` from gs1dlparser.h.  In C, `ai` and `value` are
pointers into `aiBuf` with explicit lengths `ailen`/`vallen`; here the
referenced slices are stored directly (the buffer is append-only, so the
slices never change after the element is appended). -/
structure gs1AIelement where
  ai : List Char
  value : List Char
  fnc1 : Bool
deriving DecidableEq

/-- `struct gs1DLparser` from gs1dlparser.h.  `numAIs` is the element count;
`aiData` holds the first `numAIs` extracted elements (the C array slots past
`numAIs` are dead storage). -/
structure gs1DLparser where
  aiBuf : List Char
  aiData : List gs1AIelement
  numAIs : Nat
  err : List Char
deriving DecidableEq

/-- The URI structural splitter: the portion of `gs1_parseDLuri` up to and
including chopping the fragment and query-parameter delimiters.  Returns the
(possibly chopped) buffer, the path-info offset `pi`, and the `qp`/`fr`
offsets (one past the chopped `?`/`#`, as in the C code). -/
def splitStage (buf : List Char) :
    Except (List Char) (List Char × Nat × Option Nat × Option Nat) :=
  if !((cstrAt buf 0).all (fun c => uriCharacters.contains c)) then
    .error illegalCharsMsg
  else
    let n := cstrlenAt buf 0
    let schemeEnd : Option Nat :=
      if (decide (8 ≤ n)) && (subAt buf 0 8 == "https://".toList) then some 8
      else if (decide (7 ≤ n)) && (subAt buf 0 7 == "http://".toList) then some 7
      else none
    match schemeEnd with
    | none => .error badSchemeMsg
    | some p =>
      match strchrFrom buf p '/' with
      | none => .error noDomainMsg
      | some r =>
        if r - p < 1 then .error noDomainMsg
        else
          let pi := r
          let frChop :=
            match strchrFrom buf pi '#' with
            | some f => (buf.set f nulChar, some (f + 1))
            | none => (buf, (none : Option Nat))
          let qpChop :=
            match strchrFrom frChop.1 pi '?' with
            | some q => ((frChop.1).set q nulChar, some (q + 1))
            | none => (frChop.1, (none : Option Nat))
          .ok (qpChop.1, pi, qpChop.2, frChop.2)

/-- The backward primary-key scan of `gs1_parseDLuri` (the
`while ((r = strrchr(pi, '/')) != NULL)` loop).  `pPrev` is the position
`p` carried over from the previous iteration (initially `pi`); the loop body
first restores it with `*p = '/'`.  Note that when `strrchr` finds no `/`
(because a previous iteration chopped the very first character of the path
info with `*p = '\0'`) the loop exits without restoring that chop, exactly
as in the C code.  Returns the `dp` anchor, if found, together with the
final buffer.  Fuel bounds the iteration count; each iteration strictly
decreases `p`, so `buf.length + 1` fuel never runs out. -/
def scanLoop (fuel : Nat) (buf : List Char) (pi pPrev : Nat) : Option Nat × List Char :=
  match fuel with
  | 0 => (none, buf)
  | fuel + 1 =>
    match strrchrFrom buf pi '/' with
    | none => (none, buf)
    | some r =>
      let buf := buf.set pPrev '/'
      let bufc := buf.set r nulChar
      match strrchrFrom bufc pi '/' with
      | none => (none, bufc.set r '/')
      | some p =>
        let buf := bufc.set r '/'
        let ailen := r - p - 1
        if ailen < 2 ∨ 4 < ailen ∨ allDigitsAt buf (p + 1) ailen = false then
          (none, buf)
        else if isDLpkey (subAt buf (p + 1) ailen) then
          (some p, buf)
        else
          scanLoop fuel (buf.set p nulChar) pi p

/-- The path-phase AI/value extraction loop of `gs1_parseDLuri`.  The state
is the pair (AI buffer contents, extracted elements).  An error result of
`[]` models a `goto fail` that leaves the error message empty (the `fail:`
label then installs the default message).  The `strchrFrom … = none` case
for the AI terminator is unreachable: the backward scan only yields anchors
from which every AI segment is followed by a `/` (the C code relies on the
same invariant, cf. its comment "AI is known to be valid since we previously
walked over it"). -/
def extractLoop (buf : List Char) :
    Nat → Nat → List Char × List gs1AIelement →
    Option (List Char) × (List Char × List gs1AIelement)
  | 0, _, st => (some [], st)
  | fuel + 1, p, st =>
    if buf.getD p nulChar == nulChar then (none, st)
    else
      let p := p + 1
      match strchrFrom buf p '/' with
      | none => (some [], st)
      | some r =>
        let ai := subAt buf p (r - p)
        let r := r + 1
        let pNext :=
          match strchrFrom buf r '/' with
          | some q => q
          | none => r + cstrlenAt buf r
        if pNext = r then (some (emptyPathValMsg ai), st)
        else
          let aival := URIunescape GS1_DL_MAX_AI_LEN (buf.drop r) (pNext - r) false
          if aival.length = 0 then (some (decodedTooLongPathMsg ai), st)
          else
            let aival := applyGTINnorm ai aival
            match writeAIbuf st.1 ai with
            | none => (some [], st)
            | some b1 =>
              match writeAIbuf b1 aival with
              | none => (some [], (b1, st.2))
              | some b2 =>
                if st.2.length < GS1_DL_MAX_AIS then
                  extractLoop buf fuel pNext
                    (b2, st.2 ++ [⟨ai, aival, isFNC1required ai⟩])
                else (some tooManyAIsMsg, (b2, st.2))

/-- The query-parameter loop of `gs1_parseDLuri`.  Structure mirrors the C
code: skip `&` separators, cut the parameter at the next `&` (or end of
string), skip parameters without `=`, reject numeric names that are not 2-4
characters, skip non-numeric names, reject empty values, decode, apply GTIN
normalisation, and append.  Fuel as in `extractLoop`. -/
def queryLoop (buf : List Char) :
    Nat → Nat → List Char × List gs1AIelement →
    Option (List Char) × (List Char × List gs1AIelement)
  | 0, _, st => (some [], st)
  | fuel + 1, p, st =>
    if buf.getD p nulChar == nulChar then (none, st)
    else
      let p := p + ((cstrAt buf p).takeWhile (fun c => c == '&')).length
      let r :=
        match strchrFrom buf p '&' with
        | some r => r
        | none => p + cstrlenAt buf p
      match memchrRange buf p (r - p) '=' with
      | none => queryLoop buf fuel r st
      | some e =>
        let ailen := e - p
        if allDigitsAt buf p ailen then
          if ailen < 2 ∨ 4 < ailen then
            (some (numericQueryParamMsg (subAt buf p (min ailen 10))), st)
          else
            let ai := subAt buf p ailen
            let e := e + 1
            if r = e then (some (emptyQueryValMsg ai), st)
            else
              let aival := URIunescape GS1_DL_MAX_AI_LEN (buf.drop e) (r - e) true
              if aival.length = 0 then (some (decodedTooLongQueryMsg ai), st)
              else
                let aival := applyGTINnorm ai aival
                match writeAIbuf st.1 ai with
                | none => (some [], st)
                | some b1 =>
                  match writeAIbuf b1 aival with
                  | none => (some [], (b1, st.2))
                  | some b2 =>
                    if st.2.length < GS1_DL_MAX_AIS then
                      queryLoop buf fuel r
                        (b2, st.2 ++ [⟨ai, aival, isFNC1required ai⟩])
                    else (some tooManyAIsMsg, (b2, st.2))
        else queryLoop buf fuel r st

/-- The `out:` label of `gs1_parseDLuri`: restore the chopped query and
fragment delimiters (in that order) when they were chopped. -/
def restoreDelims (buf : List Char) (qp fr : Option Nat) : List Char :=
  let buf :=
    match qp with
    | some q => buf.set (q - 1) '?'
    | none => buf
  match fr with
  | some f => buf.set (f - 1) '#'
  | none => buf

/-- The `fail:` label of `gs1_parseDLuri`: install the default message when
none was recorded, reset `numAIs` to zero, return `false`, and run the
`out:` restoration. -/
def failExit (e : List Char) (buf : List Char) (qp fr : Option Nat)
    (aiBuf : List Char) : Bool × gs1DLparser × List Char :=
  (false, ⟨aiBuf, [], 0, if e = [] then failMsgDefault else e⟩,
    restoreDelims buf qp fr)

/-- `gs1_parseDLuri(ctx, dlData)` from gs1dlparser.c.  Returns the success
flag, the context contents after the call, and the final state of the
caller's input buffer (the C function mutates `dlData` in place). -/
def gs1_parseDLuri (dlData : List Char) : Bool × gs1DLparser × List Char :=
  match splitStage dlData with
  | .error e => failExit e dlData none none []
  | .ok (buf, pi, qp, fr) =>
    match scanLoop (dlData.length + 1) buf pi pi with
    | (none, buf) => failExit noKeysMsg buf qp fr []
    | (some dp, buf) =>
      match extractLoop buf (dlData.length + 1) dp ([], []) with
      | (some e, st) => failExit e buf qp fr st.1
      | (none, st) =>
        match
          (match qp with
           | some q => queryLoop buf (dlData.length + 1) q st
           | none => (none, st)) with
        | (some e, st) => failExit e buf qp fr st.1
        | (none, st) =>
          (true, ⟨st.1, st.2, st.2.length, []⟩, restoreDelims buf qp fr)

/-- One emission pass of the three format writers: the C loops `continue`
when `fixedFirst && !(fixedPass ^ ai.fnc1)`, so an element is kept exactly
when that condition is false. -/
def passKeep (fixedFirst fixedPass : Bool) (e : gs1AIelement) : Bool :=
  !(fixedFirst && !(fixedPass ^^ e.fnc1))

/-- The element order produced by the two-pass loop shared by all three
format writers: a first pass with `fixedPass = true` always runs, and a
second pass with `fixedPass = false` runs only when `fixedFirst` is set. -/
def emitOrder (fixedFirst : Bool) (l : List gs1AIelement) : List gs1AIelement :=
  l.filter (passKeep fixedFirst true)
    ++ (if fixedFirst then l.filter (passKeep fixedFirst false) else [])

/-- The bracketed rendering of one element, `(AI)value`, escaping a literal
`(` in the value with a preceding backslash, as in
`gs1_writeBracketedAIelementString`. -/
def renderBracketedElem (e : gs1AIelement) : List Char :=
  '(' :: e.ai ++ [')']
    ++ e.value.foldr (fun c acc => if c == '(' then '\\' :: c :: acc else c :: acc) []

/-- `gs1_writeUnbracketedAIelementString(ctx, fixedFirst, extraFNC1, out)`
from gs1dlparser.c: a leading `^`, each element's AI and value, a `^` after
an element when `extraFNC1 || ai.fnc1`, and a single trailing `^` stripped. -/
def gs1_writeUnbracketedAIelementString (ctx : gs1DLparser) (fixedFirst extraFNC1 : Bool) :
    List Char :=
  let out :=
    '^' :: (emitOrder fixedFirst ctx.aiData).foldr
      (fun e acc => e.ai ++ e.value ++ (if extraFNC1 || e.fnc1 then ['^'] else []) ++ acc) []
  if out.getLast? == some '^' then out.dropLast else out

/-- `gs1_writeBracketedAIelementString(ctx, fixedFirst, out)` from
gs1dlparser.c. -/
def gs1_writeBracketedAIelementString (ctx : gs1DLparser) (fixedFirst : Bool) : List Char :=
  ((emitOrder fixedFirst ctx.aiData).map renderBracketedElem).flatten

/-- The JSON rendering of one element, `"AI":"value",` with `\` and `"`
escaped in the value, as in `gs1_writeJSON`. -/
def renderJSONElem (e : gs1AIelement) : List Char :=
  '"' :: e.ai ++ '"' :: ':' :: '"' ::
    e.value.foldr
      (fun c acc => if (c == '\\') || (c == '"') then '\\' :: c :: acc else c :: acc) []
    ++ ['"', ',']

/-- `gs1_writeJSON(ctx, fixedFirst, out)` from gs1dlparser.c: an opening
brace, the comma-terminated element renderings, then `*--p = '}'` overwrites
the final character (the trailing comma) with the closing brace. -/
def gs1_writeJSON (ctx : gs1DLparser) (fixedFirst : Bool) : List Char :=
  let out := Char.ofNat 123 :: ((emitOrder fixedFirst ctx.aiData).map renderJSONElem).flatten
  out.dropLast ++ [Char.ofNat 125]

set_option maxRecDepth 4000

/-- C1: claimed that the caller's input buffer is byte-identical after every
`gs1_parseDLuri` call.  The code violates this: on
`https://a/99/foo` the backward scan chops the first character of the path
info (`*p = '\0'` with `p` at the path's leading slash), the subsequent
`strrchr` then finds no `/`, and the loop exits without restoring the chop,
so the returned buffer differs from the input at index 9. -/
theorem gs1dl_C1 :
    (gs1_parseDLuri "https://a/99/foo".toList).1 = false
    ∧ (gs1_parseDLuri "https://a/99/foo".toList).2.2
        = ("https://a/99/foo".toList).set 9 nulChar
    ∧ decide ((gs1_parseDLuri "https://a/99/foo".toList).2.2 = "https://a/99/foo".toList)
        = false := by
  decide

/-- C2: the guard of `writeAIbuf` rejects an append only when
`strlen + l > GS1_DL_MAX_AI_BUF`.  At a content length of 5926 (63 packed
elements of 94 characters plus a 4-character AI) a 90-character value is
accepted and fills the content to exactly `GS1_DL_MAX_AI_BUF`, so the NUL
terminator written by `strncat` lands at index `GS1_DL_MAX_AI_BUF` of
`char aiBuf[GS1_DL_MAX_AI_BUF]`, one byte past the declared array; only a
strictly larger append is refused. -/
theorem gs1dl_C2 :
    writeAIbuf (List.replicate 5926 'A') (List.replicate 90 'B')
      = some (List.replicate 5926 'A' ++ List.replicate 90 'B')
    ∧ (List.replicate 5926 'A' ++ List.replicate 90 'B').length = GS1_DL_MAX_AI_BUF
    ∧ writeAIbuf (List.replicate 5927 'A') (List.replicate 90 'B') = none := by
  refine ⟨?_, ?_, ?_⟩ <;>
    · simp only [writeAIbuf, List.length_append, List.length_replicate]
      norm_num [GS1_DL_MAX_AI_BUF, GS1_DL_MAX_AIS, GS1_DL_MAX_AI_LEN]

/-- C3 counterexample: the claim's own example
`https://a/stem/00/006141411234567890/` does fail, but with the locator
error `No GS1 DL keys found in path info` — not with the extraction-stage
empty-value error (every empty-value message starts with "AI ("). -/
theorem gs1dl_C3_cex :
    (gs1_parseDLuri "https://a/stem/00/006141411234567890/".toList).1 = false
    ∧ (gs1_parseDLuri "https://a/stem/00/006141411234567890/".toList).2.1.err = noKeysMsg
    ∧ decide ((gs1_parseDLuri "https://a/stem/00/006141411234567890/".toList).2.1.err
        = emptyPathValMsg "00".toList) = false
    ∧ decide ((gs1_parseDLuri "https://a/stem/00/006141411234567890/".toList).2.1.err.take 4
        = "AI (".toList) = false := by
  decide

/-- C3 as amended: on the claim's example
`https://a/stem/00/006141411234567890/` the failure happens in the
primary-key locator with `No GS1 DL keys found in path info` (the trailing
empty segment shifts the backward scan's right-to-left pairing, so the
rightmost candidate AI is the 18-character value string, which is
structurally invalid and stops the scan before the key is seen).  The
extraction-stage error `AI (<code>) value path element is empty` is
reachable, but it is produced by an empty value segment after the located
key, not by the trailing slash as such: `https://a/x/00/` gives it for AI
`00` (key immediately before the trailing slash), `https://a/00/11/22/`
gives it for AI `22` and `https://a/00/401/99/` for AI `99` (key several
segments to the left), and `https://a/00//12/34` gives it for AI `00` with
no trailing slash at all. -/
theorem gs1dl_C3 :
    ((gs1_parseDLuri "https://a/stem/00/006141411234567890/".toList).1 = false
      ∧ (gs1_parseDLuri "https://a/stem/00/006141411234567890/".toList).2.1.err = noKeysMsg)
    ∧ ((gs1_parseDLuri "https://a/x/00/".toList).1 = false
      ∧ (gs1_parseDLuri "https://a/x/00/".toList).2.1.err = emptyPathValMsg "00".toList)
    ∧ ((gs1_parseDLuri "https://a/00/11/22/".toList).1 = false
      ∧ (gs1_parseDLuri "https://a/00/11/22/".toList).2.1.err = emptyPathValMsg "22".toList)
    ∧ ((gs1_parseDLuri "https://a/00/401/99/".toList).1 = false
      ∧ (gs1_parseDLuri "https://a/00/401/99/".toList).2.1.err = emptyPathValMsg "99".toList)
    ∧ ((gs1_parseDLuri "https://a/00//12/34".toList).1 = false
      ∧ (gs1_parseDLuri "https://a/00//12/34".toList).2.1.err = emptyPathValMsg "00".toList) := by
  decide

/-- C9: `https://a/00/006141411234567890` parses to exactly one element
(`AI=00`, value `006141411234567890`) and the three format writers produce
exactly the expected strings, for both settings of `fixedFirst`. -/
theorem gs1dl_C9 :
    (gs1_parseDLuri "https://a/00/006141411234567890".toList).1 = true
    ∧ (gs1_parseDLuri "https://a/00/006141411234567890".toList).2.1.numAIs = 1
    ∧ (gs1_parseDLuri "https://a/00/006141411234567890".toList).2.1.aiData
        = [⟨"00".toList, "006141411234567890".toList, false⟩]
    ∧ gs1_writeUnbracketedAIelementString
        (gs1_parseDLuri "https://a/00/006141411234567890".toList).2.1 false false
        = "^00006141411234567890".toList
    ∧ gs1_writeUnbracketedAIelementString
        (gs1_parseDLuri "https://a/00/006141411234567890".toList).2.1 true false
        = "^00006141411234567890".toList
    ∧ gs1_writeBracketedAIelementString
        (gs1_parseDLuri "https://a/00/006141411234567890".toList).2.1 false
        = "(00)006141411234567890".toList
    ∧ gs1_writeBracketedAIelementString
        (gs1_parseDLuri "https://a/00/006141411234567890".toList).2.1 true
        = "(00)006141411234567890".toList
    ∧ gs1_writeJSON (gs1_parseDLuri "https://a/00/006141411234567890".toList).2.1 false
        = Char.ofNat 123 :: "\"00\":\"006141411234567890\"".toList ++ [Char.ofNat 125]
    ∧ gs1_writeJSON (gs1_parseDLuri "https://a/00/006141411234567890".toList).2.1 true
        = Char.ofNat 123 :: "\"00\":\"006141411234567890\"".toList ++ [Char.ofNat 125] := by
  decide

/-- The functional form of the C padding loop equals left-padding with ASCII
zeros to length 14, for any value of length at most 14. -/
theorem applyGTINnorm_pad (v : List Char) (h : v.length ≤ 14) :
    (List.range 14).map
      (fun j => if 14 - j ≤ v.length then v.getD (v.length + j - 14) '0' else '0')
    = List.replicate (14 - v.length) '0' ++ v := by
  apply List.ext_getElem
  · simp only [List.length_map, List.length_range, List.length_append,
      List.length_replicate]
    omega
  · intro i h1 h2
    rw [List.getElem_map, List.getElem_range, List.getElem_append]
    by_cases hc : 14 - i ≤ v.length
    · rw [if_pos hc]
      have hlt : ¬ (i < (List.replicate (14 - v.length) '0').length) := by
        simp only [List.length_replicate]; omega
      rw [dif_neg hlt]
      rw [List.getD_eq_getElem?_getD]
      have hidx : v.length + i - 14 < v.length := by
        simp only [List.length_map, List.length_range] at h1
        omega
      rw [List.getElem?_eq_getElem hidx]
      simp only [Option.getD_some, List.length_replicate]
      congr 1
      omega
    · rw [if_neg hc]
      have hlt : i < (List.replicate (14 - v.length) '0').length := by
        simp only [List.length_replicate]
        simp only [List.length_map, List.length_range] at h1
        omega
      rw [dif_pos hlt]
      rw [List.getElem_replicate]

/-- C4: the GTIN normalisation applied to every accepted element (the same
code block runs in the path and the query phase): a value for AI "01" whose
decoded length is exactly 8, 12 or 13 is left-padded with ASCII zeros to
exactly 14 characters; any other AI or length (including 14) is passed
through unchanged. -/
theorem gs1dl_C4 (ai v : List Char) :
    applyGTINnorm ai v =
      if ai = "01".toList ∧ (v.length = 8 ∨ v.length = 12 ∨ v.length = 13) then
        List.replicate (14 - v.length) '0' ++ v
      else v := by
  unfold applyGTINnorm
  split
  next hb =>
    rw [Bool.and_eq_true] at hb
    have hai : ai = "01".toList := beq_iff_eq.mp hb.1
    have hv : v.length = 8 ∨ v.length = 12 ∨ v.length = 13 := by
      have h2 := hb.2
      simp only [Bool.or_eq_true, decide_eq_true_eq] at h2
      tauto
    have hc : ai = "01".toList ∧ (v.length = 8 ∨ v.length = 12 ∨ v.length = 13) := ⟨hai, hv⟩
    rw [if_pos hc]
    exact applyGTINnorm_pad v (by omega)
  next hb =>
    have hc : ¬ (ai = "01".toList ∧ (v.length = 8 ∨ v.length = 12 ∨ v.length = 13)) := by
      rintro ⟨hai, hv⟩
      apply hb
      subst hai
      rcases hv with h | h | h <;> simp [h]
    rw [if_neg hc]

/-- C5: with `fixedFirst = true` the two-pass emission order shared by all
three format writers is the stable two-way partition of the extraction-order
element list — first every element with `fnc1 = false`, then every element
with `fnc1 = true`, each group in original relative order — and consequently
the bracketed renderings emitted with `fixedFirst = true` are a permutation
(the same multiset) of those emitted with `fixedFirst = false`. -/
theorem gs1dl_C5 (l : List gs1AIelement) :
    emitOrder true l = l.filter (fun e => !e.fnc1) ++ l.filter (fun e => e.fnc1)
    ∧ ((emitOrder true l).map renderBracketedElem).Perm
        ((emitOrder false l).map renderBracketedElem) := by
  have hp1 : passKeep true true = (fun e : gs1AIelement => !e.fnc1) := by
    funext e; unfold passKeep; cases e.fnc1 <;> rfl
  have hp2 : passKeep true false = (fun e : gs1AIelement => e.fnc1) := by
    funext e; unfold passKeep; cases e.fnc1 <;> rfl
  have hp3 : passKeep false true = (fun _ : gs1AIelement => true) := by
    funext e; unfold passKeep; rfl
  have h1 : emitOrder true l = l.filter (fun e => !e.fnc1) ++ l.filter (fun e => e.fnc1) := by
    unfold emitOrder
    rw [hp1, hp2]
    simp
  have h0 : emitOrder false l = l := by
    unfold emitOrder
    rw [hp3]
    simp [List.filter_true]
  refine ⟨h1, ?_⟩
  rw [h1, h0]
  apply List.Perm.map
  have hnn : (fun x : gs1AIelement => !(!x.fnc1)) = (fun x : gs1AIelement => x.fnc1) := by
    funext x; simp
  have hperm := List.filter_append_perm (fun e : gs1AIelement => !e.fnc1) l
  rw [hnn] at hperm
  exact hperm

/-- Every `gs1_parseDLuri` result is either a `failExit` or the success
tuple: the shape underlying the error-handling claims. -/
theorem parse_shape (dlData : List Char) :
    (∃ e buf qp fr ab, gs1_parseDLuri dlData = failExit e buf qp fr ab)
    ∨ (∃ st : List Char × List gs1AIelement, ∃ buf qp fr,
        gs1_parseDLuri dlData
          = (true, ⟨st.1, st.2, st.2.length, []⟩, restoreDelims buf qp fr)) := by
  unfold gs1_parseDLuri
  repeat' split
  all_goals
    first
      | (left; exact ⟨_, _, _, _, _, rfl⟩)
      | (right; exact ⟨_, _, _, _, rfl⟩)

/-- C8: whenever `gs1_parseDLuri` returns `false` the context's element
count is exactly zero and the error field is non-empty, and whenever it
returns `true` the error field is the empty string. -/
theorem gs1dl_C8 (dlData : List Char) :
    if (gs1_parseDLuri dlData).1 then (gs1_parseDLuri dlData).2.1.err = []
    else (gs1_parseDLuri dlData).2.1.numAIs = 0
      ∧ decide ((gs1_parseDLuri dlData).2.1.err = []) = false := by
  rcases parse_shape dlData with ⟨e, buf, qp, fr, ab, hres⟩ | ⟨st, buf, qp, fr, hres⟩
  · rw [hres]
    unfold failExit
    simp only [if_neg Bool.false_ne_true]
    refine ⟨trivial, ?_⟩
    by_cases he : e = []
    · rw [if_pos he]
      rfl
    · rw [if_neg he]
      exact decide_eq_false he
  · rw [hres]
    simp

/-- `getD` through `List.drop`: reading offset `k` of the tail at `i` reads
offset `i + k` of the buffer. -/
theorem getD_drop (inp : List Char) (i k : Nat) (d : Char) :
    (inp.drop i).getD k d = inp.getD (i + k) d := by
  rw [List.getD_eq_getElem?_getD, List.getD_eq_getElem?_getD, List.getElem?_drop]

/-- Decomposing the remaining slice into its head character and tail. -/
theorem take_drop_cons (inp : List Char) (inlen i : Nat)
    (h1 : i < inlen) (h2 : i < inp.length) :
    (inp.take inlen).drop i = inp[i] :: (inp.take inlen).drop (i + 1) := by
  have hlt : i < (inp.take inlen).length := by
    rw [List.length_take]
    omega
  rw [List.drop_eq_getElem_cons hlt]
  congr 1
  exact List.getElem_take inp

/-- `getD` of an in-range index is the indexed element. -/
theorem getD_in (inp : List Char) (i : Nat) (h : i < inp.length) (d : Char) :
    inp.getD i d = inp[i] := by
  rw [List.getD_eq_getElem?_getD, List.getElem?_eq_getElem h]
  rfl

/-- Unfolding of `unescLoop` when exactly one slice character remains
(the equation compiler's shape for `n = 1`). -/
theorem unescLoop_one (q : Bool) (inlen maxlen j : Nat) (rest : List Char) :
    unescLoop q inlen maxlen 1 j rest =
      if maxlen ≤ j then []
      else
        if (decide (2 < 0 + 1) || decide (inlen < 2)) && ((rest.getD 0 nulChar) == '%')
            && isxdigitC (rest.getD 1 nulChar) && isxdigitC (rest.getD 2 nulChar) then
          [Char.ofNat (16 * hexVal (rest.getD 1 nulChar) + hexVal (rest.getD 2 nulChar))]
        else if q && ((rest.getD 0 nulChar) == '+') then
          ' ' :: unescLoop q inlen maxlen 0 (j + 1) (rest.drop 1)
        else
          (rest.getD 0 nulChar) :: unescLoop q inlen maxlen 0 (j + 1) (rest.drop 1) :=
  unescLoop.eq_3 q inlen maxlen j rest 0 (by omega)

/-- Unfolding of `unescLoop` when exactly two slice characters remain. -/
theorem unescLoop_two (q : Bool) (inlen maxlen j : Nat) (rest : List Char) :
    unescLoop q inlen maxlen 2 j rest =
      if maxlen ≤ j then []
      else
        if (decide (2 < 1 + 1) || decide (inlen < 2)) && ((rest.getD 0 nulChar) == '%')
            && isxdigitC (rest.getD 1 nulChar) && isxdigitC (rest.getD 2 nulChar) then
          [Char.ofNat (16 * hexVal (rest.getD 1 nulChar) + hexVal (rest.getD 2 nulChar))]
        else if q && ((rest.getD 0 nulChar) == '+') then
          ' ' :: unescLoop q inlen maxlen 1 (j + 1) (rest.drop 1)
        else
          (rest.getD 0 nulChar) :: unescLoop q inlen maxlen 1 (j + 1) (rest.drop 1) :=
  unescLoop.eq_3 q inlen maxlen j rest 1 (by omega)

/-- Unfolding of `unescLoop` when at least three slice characters remain. -/
theorem unescLoop_three (q : Bool) (inlen maxlen m' j : Nat) (rest : List Char) :
    unescLoop q inlen maxlen (m' + 3) j rest =
      if maxlen ≤ j then []
      else
        if (decide (2 < m' + 2 + 1) || decide (inlen < 2)) && ((rest.getD 0 nulChar) == '%')
            && isxdigitC (rest.getD 1 nulChar) && isxdigitC (rest.getD 2 nulChar) then
          Char.ofNat (16 * hexVal (rest.getD 1 nulChar) + hexVal (rest.getD 2 nulChar)) ::
            unescLoop q inlen maxlen m' (j + 1) (rest.drop 3)
        else if q && ((rest.getD 0 nulChar) == '+') then
          ' ' :: unescLoop q inlen maxlen (m' + 2) (j + 1) (rest.drop 1)
        else
          (rest.getD 0 nulChar) :: unescLoop q inlen maxlen (m' + 2) (j + 1) (rest.drop 1) :=
  unescLoop.eq_2 q inlen maxlen j rest m'

/-- The decode loop agrees with the reference decoder `percentDecodeSpec` on
the whole slice, provided the output cap is not hit (`inlen ≤ maxlen`), the
slice lies within the buffer, and the byte just after the slice is not a hex
digit (in the parser that byte is `/`, `&`, or the NUL terminator). -/
theorem unescLoop_spec (q : Bool) (inlen maxlen : Nat) (inp : List Char)
    (hm : inlen ≤ maxlen) (hl : inlen ≤ inp.length)
    (hend : isxdigitC (inp.getD inlen nulChar) = false) :
    ∀ n i j, n + i = inlen → j ≤ i →
      unescLoop q inlen maxlen n j (inp.drop i)
        = percentDecodeSpec q ((inp.take inlen).drop i) := by
  intro n
  induction n using Nat.strong_induction_on with
  | _ n IH =>
    rcases n with _ | _ | _ | m'
    · -- n = 0: slice exhausted
      intro i j hni hj
      have hidrop : (inp.take inlen).drop i = [] := by
        apply List.drop_eq_nil_of_le
        rw [List.length_take]
        omega
      rw [hidrop]
      rfl
    · -- n = 1: a single slice character remains
      intro i j hni hj
      have hi : i < inlen := by omega
      have hilen : i < inp.length := lt_of_lt_of_le hi hl
      have hjm : ¬ (maxlen ≤ j) := by omega
      have hg0 : (inp.drop i).getD 0 nulChar = inp.getD i nulChar := by
        rw [getD_drop, Nat.add_zero]
      have hg1 : (inp.drop i).getD 1 nulChar = inp.getD (i + 1) nulChar := by
        rw [getD_drop]
      have hgi : inp.getD i nulChar = inp[i] := getD_in inp i hilen nulChar
      have hs : (inp.take inlen).drop i = inp[i] :: (inp.take inlen).drop (i + 1) :=
        take_drop_cons inp inlen i hi hilen
      have ht : (inp.take inlen).drop (i + 1) = [] := by
        apply List.drop_eq_nil_of_le
        rw [List.length_take]
        omega
      rw [unescLoop_one, if_neg hjm]
      have hECf : ((decide (2 < 0 + 1) || decide (inlen < 2))
          && ((inp.drop i).getD 0 nulChar == '%')
          && isxdigitC ((inp.drop i).getD 1 nulChar)
          && isxdigitC ((inp.drop i).getD 2 nulChar)) = false := by
        rcases Nat.lt_or_ge inlen 2 with h2 | h2
        · have hinlen1 : inlen = 1 := by omega
          have hi0 : i = 0 := by omega
          have hxf : isxdigitC ((inp.drop i).getD 1 nulChar) = false := by
            rw [hg1, hi0]
            rw [hinlen1] at hend
            exact hend
          rw [hxf]
          simp
        · have hno : decide (2 < 0 + 1) = false := by simp
          have hno2 : decide (inlen < 2) = false := by
            simp only [decide_eq_false_iff_not]
            omega
          rw [hno, hno2]
          simp
      rw [if_neg (by rw [hECf]; simp)]
      rw [hs, ht, hg0, hgi]
      simp only [unescLoop.eq_1]
      by_cases hp : (inp[i] == '+') = true
      · have hpe : inp[i] = '+' := beq_iff_eq.mp hp
        cases q
        · simp only [percentDecodeSpec, if_pos hp]
          simp [hpe]
        · simp only [percentDecodeSpec, if_pos hp]
          simp [hp]
      · cases q
        · simp only [percentDecodeSpec, if_neg hp]
          simp [hp]
        · simp only [percentDecodeSpec, if_neg hp]
          simp [hp]
    · -- n = 2: two slice characters remain, no escape possible
      intro i j hni hj
      have hi : i < inlen := by omega
      have hilen : i < inp.length := lt_of_lt_of_le hi hl
      have hjm : ¬ (maxlen ≤ j) := by omega
      have hg0 : (inp.drop i).getD 0 nulChar = inp.getD i nulChar := by
        rw [getD_drop, Nat.add_zero]
      have hgi : inp.getD i nulChar = inp[i] := getD_in inp i hilen nulChar
      have hd1 : (inp.drop i).drop 1 = inp.drop (i + 1) := List.drop_drop 1 i inp
      have hs : (inp.take inlen).drop i = inp[i] :: (inp.take inlen).drop (i + 1) :=
        take_drop_cons inp inlen i hi hilen
      have hi1 : i + 1 < inlen := by omega
      have hi1len : i + 1 < inp.length := by omega
      have hs1 : (inp.take inlen).drop (i + 1)
          = inp[i+1] :: (inp.take inlen).drop (i + 2) :=
        take_drop_cons inp inlen (i + 1) hi1 hi1len
      have ht : (inp.take inlen).drop (i + 2) = [] := by
        apply List.drop_eq_nil_of_le
        rw [List.length_take]
        omega
      rw [unescLoop_two, if_neg hjm]
      have hECf : ((decide (2 < 1 + 1) || decide (inlen < 2))
          && ((inp.drop i).getD 0 nulChar == '%')
          && isxdigitC ((inp.drop i).getD 1 nulChar)
          && isxdigitC ((inp.drop i).getD 2 nulChar)) = false := by
        have hno : decide (2 < 1 + 1) = false := by simp
        have hno2 : decide (inlen < 2) = false := by
          simp only [decide_eq_false_iff_not]
          omega
        rw [hno, hno2]
        simp
      rw [if_neg (by rw [hECf]; simp)]
      have hrec : unescLoop q inlen maxlen 1 (j + 1) (inp.drop (i + 1))
          = percentDecodeSpec q ((inp.take inlen).drop (i + 1)) :=
        IH 1 (by omega) (i + 1) (j + 1) (by omega) (by omega)
      rw [hd1, hrec, hg0, hgi, hs, hs1, ht]
      by_cases hp : (inp[i] == '+') = true
      · have hpe : inp[i] = '+' := beq_iff_eq.mp hp
        cases q
        · simp only [percentDecodeSpec, if_pos hp]
          simp [hpe, hs1, ht]
        · simp only [percentDecodeSpec, if_pos hp]
          simp [hp, hs1, ht]
      · cases q
        · simp only [percentDecodeSpec, if_neg hp]
          simp [hp, hs1, ht]
        · simp only [percentDecodeSpec, if_neg hp]
          simp [hp, hs1, ht]
    · -- n = m' + 3: at least three slice characters remain
      intro i j hni hj
      have hi : i < inlen := by omega
      have hilen : i < inp.length := lt_of_lt_of_le hi hl
      have hjm : ¬ (maxlen ≤ j) := by omega
      have hg0 : (inp.drop i).getD 0 nulChar = inp.getD i nulChar := by
        rw [getD_drop, Nat.add_zero]
      have hg1 : (inp.drop i).getD 1 nulChar = inp.getD (i + 1) nulChar := by
        rw [getD_drop]
      have hg2 : (inp.drop i).getD 2 nulChar = inp.getD (i + 2) nulChar := by
        rw [getD_drop]
      have hd1 : (inp.drop i).drop 1 = inp.drop (i + 1) := List.drop_drop 1 i inp
      have hd3 : (inp.drop i).drop 3 = inp.drop (i + 3) := List.drop_drop 3 i inp
      have hgi : inp.getD i nulChar = inp[i] := getD_in inp i hilen nulChar
      have hi1 : i + 1 < inlen := by omega
      have hi2 : i + 2 < inlen := by omega
      have hi1len : i + 1 < inp.length := by omega
      have hi2len : i + 2 < inp.length := by omega
      have hgd1 : inp.getD (i + 1) nulChar = inp[i+1] := getD_in inp (i+1) hi1len nulChar
      have hgd2 : inp.getD (i + 2) nulChar = inp[i+2] := getD_in inp (i+2) hi2len nulChar
      have hs : (inp.take inlen).drop i = inp[i] :: (inp.take inlen).drop (i + 1) :=
        take_drop_cons inp inlen i hi hilen
      have hs1 : (inp.take inlen).drop (i + 1)
          = inp[i+1] :: (inp.take inlen).drop (i + 2) :=
        take_drop_cons inp inlen (i + 1) hi1 hi1len
      have hs2 : (inp.take inlen).drop (i + 2)
          = inp[i+2] :: (inp.take inlen).drop (i + 3) :=
        take_drop_cons inp inlen (i + 2) hi2 hi2len
      rw [unescLoop_three, if_neg hjm]
      simp only [hg0, hg1, hg2, hd1, hd3, hgi, hgd1, hgd2]
      by_cases hEC : ((decide (2 < m' + 2 + 1) || decide (inlen < 2)) && (inp[i] == '%')
          && isxdigitC inp[i+1] && isxdigitC inp[i+2]) = true
      · rw [if_pos hEC]
        rw [Bool.and_eq_true, Bool.and_eq_true, Bool.and_eq_true] at hEC
        have hspec : percentDecodeSpec q
            (inp[i] :: inp[i+1] :: inp[i+2] :: (inp.take inlen).drop (i + 3))
            = Char.ofNat (16 * hexVal inp[i+1] + hexVal inp[i+2]) ::
                percentDecodeSpec q ((inp.take inlen).drop (i + 3)) := by
          simp only [percentDecodeSpec]
          rw [if_pos (by rw [hEC.1.1.2, hEC.1.2, hEC.2]; rfl)]
        rw [hs, hs1, hs2, hspec]
        congr 1
        exact IH m' (by omega) (i + 3) (j + 1) (by omega) (by omega)
      · rw [if_neg hEC]
        have hrec : unescLoop q inlen maxlen (m' + 2) (j + 1) (inp.drop (i + 1))
            = percentDecodeSpec q ((inp.take inlen).drop (i + 1)) :=
          IH (m' + 2) (by omega) (i + 1) (j + 1) (by omega) (by omega)
        rw [hrec, hs]
        have hnesc : ¬ (((inp[i] == '%') && isxdigitC inp[i+1] && isxdigitC inp[i+2]) = true) := by
          intro hx
          apply hEC
          rw [Bool.and_eq_true, Bool.and_eq_true] at hx
          rw [Bool.and_eq_true, Bool.and_eq_true, Bool.and_eq_true]
          refine ⟨⟨⟨?_, hx.1.1⟩, hx.1.2⟩, hx.2⟩
          rw [Bool.or_eq_true]
          exact Or.inl (by simp)
        by_cases hp : (inp[i] == '+') = true
        · have hpe : inp[i] = '+' := beq_iff_eq.mp hp
          rw [hs1, hs2]
          simp only [percentDecodeSpec]
          rw [if_neg hnesc, if_pos hp]
          rw [← hs2, ← hs1]
          cases q
          · simp [hpe, hp]
          · simp [hp]
        · rw [hs1, hs2]
          simp only [percentDecodeSpec]
          rw [if_neg hnesc, if_neg hp]
          rw [← hs2, ← hs1]
          cases q
          · simp [hp]
          · simp [hp]

/-- C6: `URIunescape` performs exactly the specified percent-decoding on the
value slice, in both phases: each well-formed `%XX` escape (two valid hex
digits, case-insensitive) becomes the denoted byte; in the query phase only,
`+` becomes a space (the path phase keeps `+` literal); any malformed
escape — `%` before a non-hex digit, or `%` within two characters of the end
of the slice — is copied through literally.  The hypotheses state that the
value fits the per-value capacity (no truncation), the slice lies within the
buffer, and the delimiter byte following the slice is not a hex digit, which
holds at every call site (`/`, `&`, or NUL follows the slice). -/
theorem gs1dl_C6 (q : Bool) (inlen maxlen : Nat) (inp : List Char)
    (hm : inlen ≤ maxlen) (hl : inlen ≤ inp.length)
    (hend : isxdigitC (inp.getD inlen nulChar) = false) :
    URIunescape maxlen inp inlen q = percentDecodeSpec q (inp.take inlen) := by
  have h := unescLoop_spec q inlen maxlen inp hm hl hend inlen 0 0 (by omega) (by omega)
  rw [List.drop_zero] at h
  rw [URIunescape, h, List.drop_zero]

/-- C6 witness: concrete decodings through `gs1dl_C6`, in both phases. -/
theorem gs1dl_C6_witness :
    URIunescape 90 "A%2F+%zz".toList 8 true = "A/ %zz".toList
    ∧ URIunescape 90 "A%2F+%zz".toList 8 false = "A/+%zz".toList := by
  constructor
  · exact (gs1dl_C6 true 8 90 "A%2F+%zz".toList (by decide) (by decide) (by decide)).trans
      (by decide)
  · exact (gs1dl_C6 false 8 90 "A%2F+%zz".toList (by decide) (by decide) (by decide)).trans
      (by decide)

/-- A `firstIdx` hit indexes an element satisfying the predicate. -/
theorem firstIdx_char (p : Char → Bool) (l : List Char) (k : Nat)
    (h : firstIdx p l = some k) : ∃ a, l[k]? = some a ∧ p a = true := by
  induction l generalizing k with
  | nil => exact absurd h (by simp [firstIdx])
  | cons c rest ih =>
    rw [firstIdx] at h
    by_cases hc : p c = true
    · rw [if_pos hc] at h
      obtain rfl : (0 : Nat) = k := by simpa using h
      exact ⟨c, by simp, hc⟩
    · rw [if_neg hc] at h
      rw [Option.map_eq_some'] at h
      obtain ⟨k', hk, rfl⟩ := h
      obtain ⟨a, ha, hpa⟩ := ih k' hk
      exact ⟨a, by simpa using ha, hpa⟩

/-- A `lastIdx` hit indexes an element satisfying the predicate. -/
theorem lastIdx_char (p : Char → Bool) (l : List Char) (k : Nat)
    (h : lastIdx p l = some k) : ∃ a, l[k]? = some a ∧ p a = true := by
  induction l generalizing k with
  | nil => exact absurd h (by simp [lastIdx])
  | cons c rest ih =>
    rw [lastIdx] at h
    rcases hk : lastIdx p rest with _ | k'
    · rw [hk] at h
      by_cases hc : p c = true
      · rw [if_pos hc] at h
        obtain rfl : (0 : Nat) = k := by simpa using h
        exact ⟨c, by simp, hc⟩
      · rw [if_neg hc] at h
        exact absurd h (by simp)
    · rw [hk] at h
      obtain rfl : k' + 1 = k := by simpa using h
      obtain ⟨a, ha, hpa⟩ := ih k' hk
      exact ⟨a, by simpa using ha, hpa⟩

/-- Reading inside a `takeWhile` prefix reads the underlying list. -/
theorem takeWhile_getElem? (p : Char → Bool) (l : List Char) (k : Nat) (a : Char)
    (h : (l.takeWhile p)[k]? = some a) : l[k]? = some a := by
  obtain ⟨t, ht⟩ := List.takeWhile_prefix p (l := l)
  have hk : k < (l.takeWhile p).length := by
    by_contra hge
    rw [List.getElem?_eq_none (by omega)] at h
    exact absurd h (by simp)
  rw [← ht, List.getElem?_append_left hk]
  exact h

/-- Reading inside the C string at offset `i` reads the buffer at `i + k`. -/
theorem cstrAt_getElem? (buf : List Char) (i k : Nat) (a : Char)
    (h : (cstrAt buf i)[k]? = some a) : buf[i + k]? = some a := by
  rw [cstrAt] at h
  have hh := takeWhile_getElem? _ _ _ _ h
  rwa [List.getElem?_drop] at hh

/-- `strchrFrom` returns the offset of an occurrence of the character, at or
after the start offset. -/
theorem strchrFrom_char (buf : List Char) (i : Nat) (c : Char) (r : Nat)
    (h : strchrFrom buf i c = some r) : buf[r]? = some c ∧ i ≤ r := by
  rw [strchrFrom, Option.map_eq_some'] at h
  obtain ⟨k, hk, rfl⟩ := h
  obtain ⟨a, ha, hpa⟩ := firstIdx_char _ _ _ hk
  have hac : a = c := beq_iff_eq.mp hpa
  subst hac
  exact ⟨cstrAt_getElem? buf i k a ha, by omega⟩

/-- `strrchrFrom` returns the offset of an occurrence of the character, at
or after the start offset. -/
theorem strrchrFrom_char (buf : List Char) (i : Nat) (c : Char) (r : Nat)
    (h : strrchrFrom buf i c = some r) : buf[r]? = some c ∧ i ≤ r := by
  rw [strrchrFrom, Option.map_eq_some'] at h
  obtain ⟨k, hk, rfl⟩ := h
  obtain ⟨a, ha, hpa⟩ := lastIdx_char _ _ _ hk
  have hac : a = c := beq_iff_eq.mp hpa
  subst hac
  exact ⟨cstrAt_getElem? buf i k a ha, by omega⟩

/-- Writing the character a cell already holds leaves the buffer unchanged
(the C idiom `*p = '/'` restoring a separator that is already there). -/
theorem set_id (l : List Char) (i : Nat) (c : Char)
    (h : l[i]? = some c) : l.set i c = l := by
  induction l generalizing i with
  | nil => simp
  | cons a t ih =>
    cases i with
    | zero =>
      simp only [List.getElem?_cons_zero, Option.some.injEq] at h
      simp [h]
    | succ n =>
      simp only [List.getElem?_cons_succ] at h
      simp [ih n h]

/-- After a successful split, the path-info offset holds a `/` (the chops at
`#` and `?` never touch it). -/
theorem splitStage_pi (dlData buf : List Char) (pi : Nat) (qp fr : Option Nat)
    (h : splitStage dlData = .ok (buf, pi, qp, fr)) :
    buf[pi]? = some '/' := by
  simp only [splitStage] at h
  split at h
  · exact absurd h (by simp)
  · split at h
    · exact absurd h (by simp)
    · rename_i p hscheme
      split at h
      · exact absurd h (by simp)
      · rename_i r hstrchr
        split at h
        · exact absurd h (by simp)
        · have hslash : dlData[r]? = some '/' := (strchrFrom_char _ _ _ _ hstrchr).1
          rcases h3 : strchrFrom dlData r '#' with _ | f
          all_goals simp only [h3] at h
          · -- no fragment chop
            rcases h4 : strchrFrom dlData r '?' with _ | qpos
            all_goals simp only [h4] at h
            · simp only [Except.ok.injEq, Prod.mk.injEq] at h
              obtain ⟨hbuf, hpi, -, -⟩ := h
              rw [← hbuf, ← hpi]
              exact hslash
            · have hqr : dlData[qpos]? = some '?' := (strchrFrom_char _ _ _ _ h4).1
              have hqne : qpos ≠ r := by
                intro he
                rw [he, hslash] at hqr
                simp at hqr
              simp only [Except.ok.injEq, Prod.mk.injEq] at h
              obtain ⟨hbuf, hpi, -, -⟩ := h
              rw [← hbuf, ← hpi]
              rw [List.getElem?_set_ne hqne]
              exact hslash
          · -- fragment chopped at f
            have hfc : dlData[f]? = some '#' := (strchrFrom_char _ _ _ _ h3).1
            have hfne : f ≠ r := by
              intro he
              rw [he, hslash] at hfc
              simp at hfc
            have hslash1 : (dlData.set f nulChar)[r]? = some '/' := by
              rw [List.getElem?_set_ne hfne]
              exact hslash
            rcases h4 : strchrFrom (dlData.set f nulChar) r '?' with _ | qpos
            all_goals simp only [h4] at h
            · simp only [Except.ok.injEq, Prod.mk.injEq] at h
              obtain ⟨hbuf, hpi, -, -⟩ := h
              rw [← hbuf, ← hpi]
              exact hslash1
            · have hqr : (dlData.set f nulChar)[qpos]? = some '?' :=
                (strchrFrom_char _ _ _ _ h4).1
              have hqne : qpos ≠ r := by
                intro he
                rw [he, hslash1] at hqr
                simp at hqr
              simp only [Except.ok.injEq, Prod.mk.injEq] at h
              obtain ⟨hbuf, hpi, -, -⟩ := h
              rw [← hbuf, ← hpi]
              rw [List.getElem?_set_ne hqne]
              exact hslash1

/-- C7: whenever the rightmost candidate pair of the path info — delimited
by the last `/` (at `r`) and the previous `/` (at `p`, found after chopping
at `r`) — has an AI segment that is not 2-4 characters of digits, the
backward scan stops at it immediately: `gs1_parseDLuri` fails with
`No GS1 DL keys found in path info`, regardless of any valid primary key
further left in the path. -/
theorem gs1dl_C7 (dlData buf : List Char) (pi r p : Nat) (qp fr : Option Nat)
    (hsplit : splitStage dlData = .ok (buf, pi, qp, fr))
    (hr : strrchrFrom buf pi '/' = some r)
    (hp : strrchrFrom (buf.set r nulChar) pi '/' = some p)
    (hbad : r - p - 1 < 2 ∨ 4 < r - p - 1 ∨ allDigitsAt buf (p + 1) (r - p - 1) = false) :
    (gs1_parseDLuri dlData).1 = false
    ∧ (gs1_parseDLuri dlData).2.1.err = noKeysMsg := by
  have hpi : buf[pi]? = some '/' := splitStage_pi dlData buf pi qp fr hsplit
  have hbufset : buf.set pi '/' = buf := set_id buf pi '/' hpi
  have hrc : buf[r]? = some '/' := (strrchrFrom_char _ _ _ _ hr).1
  have hscan : scanLoop (dlData.length + 1) buf pi pi = (none, buf) := by
    rw [scanLoop]
    rw [hr]
    simp only [hbufset]
    rw [hp]
    simp only [List.set_set, set_id buf r '/' hrc]
    rw [if_pos hbad]
  have hres : gs1_parseDLuri dlData = failExit noKeysMsg buf qp fr [] := by
    unfold gs1_parseDLuri
    simp only [hsplit, hscan]
  rw [hres]
  unfold failExit
  refine ⟨rfl, ?_⟩
  rw [if_neg (by decide)]

/-- C7 witness: `https://a/00/x/999999/y` has the structurally invalid
rightmost candidate AI `999999` (six digits) and fails with the no-keys
error even though the valid primary key `00` appears further left. -/
theorem gs1dl_C7_witness :
    (gs1_parseDLuri "https://a/00/x/999999/y".toList).1 = false
    ∧ (gs1_parseDLuri "https://a/00/x/999999/y".toList).2.1.err = noKeysMsg :=
  gs1dl_C7 "https://a/00/x/999999/y".toList "https://a/00/x/999999/y".toList 9 21 14
    none none rfl (by decide) (by decide) (by decide)

/-- `URIunescape` writes at least one output character whenever the slice is
non-empty and the capacity is positive: the loop body always emits a
character on its first iteration. -/
theorem URIunescape_pos (maxlen : Nat) (inp : List Char) (inlen : Nat) (q : Bool)
    (h1 : 1 ≤ inlen) (h2 : 1 ≤ maxlen) : 1 ≤ (URIunescape maxlen inp inlen q).length := by
  rw [URIunescape]
  obtain ⟨m, rfl⟩ : ∃ m, inlen = m + 1 := ⟨inlen - 1, by omega⟩
  rcases m with _ | _ | m'
  · rw [unescLoop_one, if_neg (by omega)]
    split
    · simp
    · split <;> simp
  · rw [unescLoop_two, if_neg (by omega)]
    split
    · simp
    · split <;> simp
  · rw [unescLoop_three, if_neg (by omega)]
    split
    · simp
    · split <;> simp

/-- The decode loop never writes more than `maxlen - j` further characters. -/
theorem unescLoop_len (q : Bool) (inlen maxlen : Nat) :
    ∀ n j rest, (unescLoop q inlen maxlen n j rest).length ≤ maxlen - j := by
  intro n
  induction n using Nat.strong_induction_on with
  | _ n IH =>
    rcases n with _ | _ | _ | m'
    · intro j rest
      rw [unescLoop.eq_1]
      simp
    · intro j rest
      rw [unescLoop_one]
      split
      · simp
      · rename_i hj
        split
        · simp
          omega
        · split
          all_goals
            simp only [List.length_cons, unescLoop.eq_1, List.length_nil]
            omega
    · intro j rest
      rw [unescLoop_two]
      split
      · simp
      · rename_i hj
        split
        · simp
          omega
        · split
          all_goals
            have hrec := IH 1 (by omega) (j + 1) (rest.drop 1)
            simp only [List.length_cons]
            omega
    · intro j rest
      rw [unescLoop_three]
      split
      · simp
      · rename_i hj
        split
        · have hrec := IH m' (by omega) (j + 1) (rest.drop 3)
          simp only [List.length_cons]
          omega
        · split
          all_goals
            have hrec := IH (m' + 2) (by omega) (j + 1) (rest.drop 1)
            simp only [List.length_cons]
            omega

/-- `URIunescape` truncates: the decoded output never exceeds the capacity. -/
theorem URIunescape_le (maxlen : Nat) (inp : List Char) (inlen : Nat) (q : Bool) :
    (URIunescape maxlen inp inlen q).length ≤ maxlen := by
  have h := unescLoop_len q inlen maxlen inlen 0 inp
  rw [URIunescape]
  omega

/-- Every error the path-phase extraction loop can produce: an empty message
(a `writeAIbuf` failure or exhausted fuel), an empty-value message, or the
too-many-AIs message.  In particular the `Decoded AI ... too long` branch is
unreachable, because the value slice is non-empty (the `p == r` guard ran
first) and the capacity is positive, so `URIunescape` returns at least one
character. -/
theorem extractLoop_err (buf : List Char) (fuel : Nat) :
    ∀ p st e st2, extractLoop buf fuel p st = (some e, st2) →
      e = [] ∨ (∃ a, e = emptyPathValMsg a) ∨ e = tooManyAIsMsg := by
  induction fuel with
  | zero =>
    intro p st e st2 h
    simp only [extractLoop, Prod.mk.injEq, Option.some.injEq] at h
    left
    exact h.1.symm
  | succ fuel ih =>
    intro p st e st2 h
    simp only [extractLoop] at h
    split at h
    · simp at h
    · split at h
      · simp only [Prod.mk.injEq, Option.some.injEq] at h
        left
        exact h.1.symm
      · rename_i r hr
        rcases hq : strchrFrom buf (r + 1) '/' with _ | q
        all_goals simp only [hq] at h
        · -- value runs to end of string
          split at h
          · simp only [Prod.mk.injEq, Option.some.injEq] at h
            right
            left
            exact ⟨_, h.1.symm⟩
          · rename_i hne
            split at h
            · rename_i hlen
              exfalso
              generalize hcl : cstrlenAt buf (r + 1) = L at hne hlen
              have hL : 1 ≤ L := by
                rcases Nat.eq_zero_or_pos L with h0 | h1
                · exact absurd (by rw [h0, Nat.add_zero]) hne
                · exact h1
              have harg : 1 ≤ r + 1 + L - (r + 1) := by
                rw [Nat.add_sub_cancel_left]
                exact hL
              have hpos := URIunescape_pos GS1_DL_MAX_AI_LEN (buf.drop (r + 1))
                (r + 1 + L - (r + 1)) false harg (by decide)
              exact (Nat.pos_iff_ne_zero.mp hpos) hlen
            · split at h
              · simp only [Prod.mk.injEq, Option.some.injEq] at h
                left
                exact h.1.symm
              · split at h
                · simp only [Prod.mk.injEq, Option.some.injEq] at h
                  left
                  exact h.1.symm
                · split at h
                  · exact ih _ _ _ _ h
                  · simp only [Prod.mk.injEq, Option.some.injEq] at h
                    right
                    right
                    exact h.1.symm
        · -- value ends at the next slash
          split at h
          · simp only [Prod.mk.injEq, Option.some.injEq] at h
            right
            left
            exact ⟨_, h.1.symm⟩
          · rename_i hne
            split at h
            · rename_i hlen
              exfalso
              have hq2 := (strchrFrom_char _ _ _ _ hq).2
              have harg : 1 ≤ q - (r + 1) :=
                Nat.sub_pos_of_lt (Nat.lt_of_le_of_ne hq2 (fun he => hne he.symm))
              have hpos := URIunescape_pos GS1_DL_MAX_AI_LEN (buf.drop (r + 1))
                (q - (r + 1)) false harg (by decide)
              exact (Nat.pos_iff_ne_zero.mp hpos) hlen
            · split at h
              · simp only [Prod.mk.injEq, Option.some.injEq] at h
                left
                exact h.1.symm
              · split at h
                · simp only [Prod.mk.injEq, Option.some.injEq] at h
                  left
                  exact h.1.symm
                · split at h
                  · exact ih _ _ _ _ h
                  · simp only [Prod.mk.injEq, Option.some.injEq] at h
                    right
                    right
                    exact h.1.symm

/-- A successful indexed read is in bounds. -/
theorem getElem?_lt {l : List Char} {k : Nat} {a : Char} (h : l[k]? = some a) :
    k < l.length := by
  by_contra hge
  rw [List.getElem?_eq_none (by omega)] at h
  exact absurd h (by simp)

/-- `memchrRange` finds an offset inside the searched region. -/
theorem memchrRange_bounds (buf : List Char) (i n : Nat) (c : Char) (e : Nat)
    (h : memchrRange buf i n c = some e) : i ≤ e ∧ e < i + n := by
  rw [memchrRange, Option.map_eq_some'] at h
  obtain ⟨k, hk, rfl⟩ := h
  obtain ⟨a, ha, -⟩ := firstIdx_char _ _ _ hk
  have hkl := getElem?_lt ha
  have hlen : (subAt buf i n).length ≤ n := by
    rw [subAt, List.length_take]
    omega
  exact ⟨by omega, by omega⟩

/-- Every error the query-parameter loop can produce: an empty message, the
numeric-parameter message, an empty-value message, or the too-many-AIs
message.  As in the path phase, the `Decoded AI ... too long` branch is
unreachable. -/
theorem queryLoop_err (buf : List Char) (fuel : Nat) :
    ∀ p st e st2, queryLoop buf fuel p st = (some e, st2) →
      e = [] ∨ (∃ s, e = numericQueryParamMsg s) ∨ (∃ a, e = emptyQueryValMsg a)
        ∨ e = tooManyAIsMsg := by
  induction fuel with
  | zero =>
    intro p st e st2 h
    simp only [queryLoop, Prod.mk.injEq, Option.some.injEq] at h
    left
    exact h.1.symm
  | succ fuel ih =>
    intro p st e st2 h
    simp only [queryLoop] at h
    split at h
    · simp at h
    · generalize hp2 : p + ((cstrAt buf p).takeWhile (fun c => c == '&')).length = p2 at h
      rcases hamp : strchrFrom buf p2 '&' with _ | rr
      all_goals simp only [hamp] at h
      · -- parameter runs to end of string
        rcases hme : memchrRange buf p2 (p2 + cstrlenAt buf p2 - p2) '=' with _ | epos
        all_goals simp only [hme] at h
        · exact ih _ _ _ _ h
        · split at h
          · split at h
            · simp only [Prod.mk.injEq, Option.some.injEq] at h
              right
              left
              exact ⟨_, h.1.symm⟩
            · rename_i hlen24
              split at h
              · simp only [Prod.mk.injEq, Option.some.injEq] at h
                right
                right
                left
                exact ⟨_, h.1.symm⟩
              · rename_i hre
                split at h
                · rename_i hzero
                  exfalso
                  have hb := memchrRange_bounds _ _ _ _ _ hme
                  have hre2 : ¬ (p2 + cstrlenAt buf p2 = epos + 1) := hre
                  have harg : 1 ≤ p2 + cstrlenAt buf p2 - (epos + 1) := by omega
                  have hpos := URIunescape_pos GS1_DL_MAX_AI_LEN (buf.drop (epos + 1))
                    (p2 + cstrlenAt buf p2 - (epos + 1)) true harg (by decide)
                  exact (Nat.pos_iff_ne_zero.mp hpos) hzero
                · split at h
                  · simp only [Prod.mk.injEq, Option.some.injEq] at h
                    left
                    exact h.1.symm
                  · split at h
                    · simp only [Prod.mk.injEq, Option.some.injEq] at h
                      left
                      exact h.1.symm
                    · split at h
                      · exact ih _ _ _ _ h
                      · simp only [Prod.mk.injEq, Option.some.injEq] at h
                        right
                        right
                        right
                        exact h.1.symm
          · exact ih _ _ _ _ h
      · -- parameter ends at the next ampersand
        rcases hme : memchrRange buf p2 (rr - p2) '=' with _ | epos
        all_goals simp only [hme] at h
        · exact ih _ _ _ _ h
        · split at h
          · split at h
            · simp only [Prod.mk.injEq, Option.some.injEq] at h
              right
              left
              exact ⟨_, h.1.symm⟩
            · rename_i hlen24
              split at h
              · simp only [Prod.mk.injEq, Option.some.injEq] at h
                right
                right
                left
                exact ⟨_, h.1.symm⟩
              · rename_i hre
                split at h
                · rename_i hzero
                  exfalso
                  have hb := memchrRange_bounds _ _ _ _ _ hme
                  have hrr := (strchrFrom_char _ _ _ _ hamp).2
                  have hre2 : ¬ (rr = epos + 1) := hre
                  have harg : 1 ≤ rr - (epos + 1) := by omega
                  have hpos := URIunescape_pos GS1_DL_MAX_AI_LEN (buf.drop (epos + 1))
                    (rr - (epos + 1)) true harg (by decide)
                  exact (Nat.pos_iff_ne_zero.mp hpos) hzero
                · split at h
                  · simp only [Prod.mk.injEq, Option.some.injEq] at h
                    left
                    exact h.1.symm
                  · split at h
                    · simp only [Prod.mk.injEq, Option.some.injEq] at h
                      left
                      exact h.1.symm
                    · split at h
                      · exact ih _ _ _ _ h
                      · simp only [Prod.mk.injEq, Option.some.injEq] at h
                        right
                        right
                        right
                        exact h.1.symm
          · exact ih _ _ _ _ h

/-- The structural splitter produces only its three fixed error messages. -/
theorem splitStage_err (dlData : List Char) (e : List Char)
    (h : splitStage dlData = .error e) :
    e = illegalCharsMsg ∨ e = badSchemeMsg ∨ e = noDomainMsg := by
  simp only [splitStage] at h
  split at h
  · left
    exact ((Except.error.injEq _ _).mp h).symm
  · split at h
    · right
      left
      exact ((Except.error.injEq _ _).mp h).symm
    · split at h
      · right
        right
        exact ((Except.error.injEq _ _).mp h).symm
      · split at h
        · right
          right
          exact ((Except.error.injEq _ _).mp h).symm
        · exact Except.noConfusion h

/-- Lists with different head characters differ. -/
theorem ne_of_headI_ne (l1 l2 : List Char) (c1 c2 : Char) (h1 : l1.headI = c1)
    (h2 : l2.headI = c2) (h : c1 ≠ c2) : l1 ≠ l2 := by
  intro he
  subst he
  exact h (h1.symm.trans h2)

/-- Enumeration of every error message `gs1_parseDLuri` can leave in the
context: the three splitter messages, the no-keys message, the default
message, the empty-value messages, the numeric-query-parameter message, or
the too-many-AIs message (or the empty string on success). -/
theorem parse_err_enum (dlData : List Char) :
    (gs1_parseDLuri dlData).2.1.err = []
    ∨ (gs1_parseDLuri dlData).2.1.err = illegalCharsMsg
    ∨ (gs1_parseDLuri dlData).2.1.err = badSchemeMsg
    ∨ (gs1_parseDLuri dlData).2.1.err = noDomainMsg
    ∨ (gs1_parseDLuri dlData).2.1.err = noKeysMsg
    ∨ (gs1_parseDLuri dlData).2.1.err = failMsgDefault
    ∨ (∃ a, (gs1_parseDLuri dlData).2.1.err = emptyPathValMsg a)
    ∨ (∃ s, (gs1_parseDLuri dlData).2.1.err = numericQueryParamMsg s)
    ∨ (∃ a, (gs1_parseDLuri dlData).2.1.err = emptyQueryValMsg a)
    ∨ (gs1_parseDLuri dlData).2.1.err = tooManyAIsMsg := by
  unfold gs1_parseDLuri
  split
  · rename_i e heq
    have hsp := splitStage_err dlData e heq
    unfold failExit
    simp only []
    by_cases he : e = []
    · rw [if_pos he]
      tauto
    · rw [if_neg he]
      tauto
  · split
    · unfold failExit
      simp only []
      rw [if_neg (by decide)]
      tauto
    · split
      · rename_i e st heq
        have hex := extractLoop_err _ _ _ _ _ _ heq
        unfold failExit
        simp only []
        by_cases he : e = []
        · rw [if_pos he]
          tauto
        · rw [if_neg he]
          rcases hex with h1 | ⟨a, h1⟩ | h1
          · exact absurd h1 he
          · subst h1
            tauto
          · subst h1
            tauto
      · split
        · rename_i e st2 heq
          unfold failExit
          simp only []
          have hqe : e = [] ∨ (∃ s, e = numericQueryParamMsg s)
              ∨ (∃ a, e = emptyQueryValMsg a) ∨ e = tooManyAIsMsg := by
            split at heq
            · exact queryLoop_err _ _ _ _ _ _ heq
            · exact absurd heq (by simp)
          by_cases he : e = []
          · rw [if_pos he]
            tauto
          · rw [if_neg he]
            rcases hqe with h1 | ⟨s, h1⟩ | ⟨a, h1⟩ | h1
            · exact absurd h1 he
            · subst h1
              tauto
            · subst h1
              tauto
            · subst h1
              tauto
        · left
          rfl

/-- C10: `gs1_parseDLuri` never fails with either `Decoded AI ... too long`
error (both start with the character `D`, which no reachable message starts
with): empty raw values are rejected before decoding and the per-value
capacity `GS1_DL_MAX_AI_LEN` is positive, so `URIunescape` always returns at
least one character on a non-empty slice; an overlong decoded value is
instead silently truncated to at most `GS1_DL_MAX_AI_LEN` characters and
accepted. -/
theorem gs1dl_C10 (dlData ai inp : List Char) (n : Nat) (q : Bool) :
    decide ((gs1_parseDLuri dlData).2.1.err = decodedTooLongPathMsg ai) = false
    ∧ decide ((gs1_parseDLuri dlData).2.1.err = decodedTooLongQueryMsg ai) = false
    ∧ 1 ≤ (URIunescape GS1_DL_MAX_AI_LEN inp (n + 1) q).length
    ∧ (URIunescape GS1_DL_MAX_AI_LEN inp (n + 1) q).length ≤ GS1_DL_MAX_AI_LEN := by
  refine ⟨?_, ?_,
    URIunescape_pos GS1_DL_MAX_AI_LEN inp (n + 1) q (by omega) (by decide),
    URIunescape_le GS1_DL_MAX_AI_LEN inp (n + 1) q⟩
  all_goals
    rcases parse_err_enum dlData with h | h | h | h | h | h | ⟨a, h⟩ | ⟨s, h⟩ | ⟨a, h⟩ | h <;>
      rw [h]
  · exact decide_eq_false (ne_of_headI_ne _ _ 'A' 'D' rfl rfl (by decide))
  · exact decide_eq_false (ne_of_headI_ne _ _ 'U' 'D' rfl rfl (by decide))
  · exact decide_eq_false (ne_of_headI_ne _ _ 'S' 'D' rfl rfl (by decide))
  · exact decide_eq_false (ne_of_headI_ne _ _ 'U' 'D' rfl rfl (by decide))
  · exact decide_eq_false (ne_of_headI_ne _ _ 'N' 'D' rfl rfl (by decide))
  · exact decide_eq_false (ne_of_headI_ne _ _ 'F' 'D' rfl rfl (by decide))
  · exact decide_eq_false (ne_of_headI_ne _ _ 'A' 'D' rfl rfl (by decide))
  · exact decide_eq_false (ne_of_headI_ne _ _ 'S' 'D' rfl rfl (by decide))
  · exact decide_eq_false (ne_of_headI_ne _ _ 'A' 'D' rfl rfl (by decide))
  · exact decide_eq_false (ne_of_headI_ne _ _ 'T' 'D' rfl rfl (by decide))
  · exact decide_eq_false (ne_of_headI_ne _ _ 'A' 'D' rfl rfl (by decide))
  · exact decide_eq_false (ne_of_headI_ne _ _ 'U' 'D' rfl rfl (by decide))
  · exact decide_eq_false (ne_of_headI_ne _ _ 'S' 'D' rfl rfl (by decide))
  · exact decide_eq_false (ne_of_headI_ne _ _ 'U' 'D' rfl rfl (by decide))
  · exact decide_eq_false (ne_of_headI_ne _ _ 'N' 'D' rfl rfl (by decide))
  · exact decide_eq_false (ne_of_headI_ne _ _ 'F' 'D' rfl rfl (by decide))
  · exact decide_eq_false (ne_of_headI_ne _ _ 'A' 'D' rfl rfl (by decide))
  · exact decide_eq_false (ne_of_headI_ne _ _ 'S' 'D' rfl rfl (by decide))
  · exact decide_eq_false (ne_of_headI_ne _ _ 'A' 'D' rfl rfl (by decide))
  · exact decide_eq_false (ne_of_headI_ne _ _ 'T' 'D' rfl rfl (by decide))
